import Mathlib

/-!
A shallow embedding of the codec package's encoding scanner and its unicode
decoder.  Texts are modelled as byte lists (`List Nat`, each entry one byte
value).  Loops of the Go source advance an index by a variable amount each
iteration; they are embedded as structurally recursive functions over a fuel
argument, instantiated with the text length at every call site (each loop
iteration advances the index by at least one and exits once the index reaches
the length, so that much fuel always suffices, and the fuel-exhausted result
coincides with the loop-exit result).
-/

/-- Byte classifier table `isHexChar`: 0-9, A-F, a-f. -/
def isHexChar (c : Nat) : Bool :=
  decide ((48 ≤ c ∧ c ≤ 57) ∨ (65 ≤ c ∧ c ≤ 70) ∨ (97 ≤ c ∧ c ≤ 102))

/-- Byte classifier table `isB64Char`: digits, letters, underscore, slash,
plus, hyphen. -/
def isB64Char (c : Nat) : Bool :=
  decide ((48 ≤ c ∧ c ≤ 57) ∨ (65 ≤ c ∧ c ≤ 90) ∨ (97 ≤ c ∧ c ≤ 122) ∨
    c = 95 ∨ c = 47 ∨ c = 43 ∨ c = 45)

/-- Byte classifier table `isB64NotHex`: base64 bytes that are not hex digits
(G-Z, g-z, underscore, slash, plus, hyphen). -/
def isB64NotHex (c : Nat) : Bool :=
  decide ((71 ≤ c ∧ c ≤ 90) ∨ (103 ≤ c ∧ c ≤ 122) ∨
    c = 95 ∨ c = 47 ∨ c = 43 ∨ c = 45)

/-- Byte classifier table `isWhitespace`: space, tab, newline, carriage
return, form feed, vertical tab. -/
def isWhitespace (c : Nat) : Bool :=
  decide (c = 32 ∨ c = 9 ∨ c = 10 ∨ c = 13 ∨ c = 12 ∨ c = 11)

/-- Modelled from the spec: the hex digit value table `hexMap` (its definition
is outside the provided sources; the spec's classifier tables include hex digit
membership and the decoders parse exactly four hex digits per unit).  Hex digit
bytes map to their value, every other byte to the sentinel 255. -/
def hexMap (c : Nat) : Nat :=
  if 48 ≤ c ∧ c ≤ 57 then c - 48
  else if 65 ≤ c ∧ c ≤ 70 then c - 55
  else if 97 ≤ c ∧ c ≤ 102 then c - 87
  else 255

/-- `parseHex4` parses exactly 4 hex characters starting at `offset` into a
code point value; `none` on failure.  The Go loop over the four digits is
unrolled; `val<<4 | n` on disjoint nibbles equals `val*16 + n`. -/
def parseHex4 (s : List Nat) (offset : Nat) : Option Nat :=
  if offset + 4 > s.length then none
  else if hexMap (s.getD offset 0) = 255 ∨ hexMap (s.getD (offset+1) 0) = 255 ∨
      hexMap (s.getD (offset+2) 0) = 255 ∨ hexMap (s.getD (offset+3) 0) = 255 then none
  else some (((hexMap (s.getD offset 0) * 16 + hexMap (s.getD (offset+1) 0)) * 16 +
      hexMap (s.getD (offset+2) 0)) * 16 + hexMap (s.getD (offset+3) 0))

/-- Models Go's `utf8.EncodeRune` on the code point values `parseHex4` can
produce: UTF-8 bytes of the code point, with surrogates (and out-of-range
values) encoded as the replacement character U+FFFD. -/
def utf8Encode (r : Nat) : List Nat :=
  if r < 128 then [r]
  else if r < 2048 then [192 + r / 64, 128 + r % 64]
  else if (55296 ≤ r ∧ r ≤ 57343) ∨ 1114111 < r then [239, 191, 189]
  else if r < 65536 then [224 + r / 4096, 128 + (r / 64) % 64, 128 + r % 64]
  else [240 + r / 262144, 128 + (r / 4096) % 64, 128 + (r / 64) % 64, 128 + r % 64]

/-- Byte-list prefix test, mirroring how Go's `strings.HasPrefix` compares. -/
def hasPrefixB : List Nat → List Nat → Bool
  | _, [] => true
  | [], _ :: _ => false
  | a :: s, b :: p => a == b && hasPrefixB s p

/-- Byte-list substring test, mirroring Go's `strings.Contains`. -/
def containsB : List Nat → List Nat → Bool
  | [], pat => pat.isEmpty
  | a :: s, pat => hasPrefixB (a :: s) pat || containsB s pat

/-- Loop body of `decodeUnicodeCodePoints`: scans for `U+XXXX` groups
(`U` = 85, `+` = 43), decodes each, and optionally skips one space or tab
separator when another `U+` follows right after it. -/
def dUCPLoop : Nat → List Nat → Nat → List Nat → Bool → List Nat × Bool
  | 0, _, _, buf, changed => (buf, changed)
  | fuel+1, s, i, buf, changed =>
    if i < s.length then
      if i + 5 < s.length ∧ s.getD i 0 = 85 ∧ s.getD (i+1) 0 = 43 then
        match parseHex4 s (i+2) with
        | some r =>
          if i + 6 < s.length ∧ (s.getD (i+6) 0 = 32 ∨ s.getD (i+6) 0 = 9) ∧
              i + 12 < s.length ∧ s.getD (i+7) 0 = 85 ∧ s.getD (i+8) 0 = 43 then
            dUCPLoop fuel s (i+7) (buf ++ utf8Encode r) true
          else
            dUCPLoop fuel s (i+6) (buf ++ utf8Encode r) true
        | none => dUCPLoop fuel s (i+1) (buf ++ [s.getD i 0]) changed
      else dUCPLoop fuel s (i+1) (buf ++ [s.getD i 0]) changed
    else (buf, changed)

/-- `decodeUnicodeCodePoints` decodes `U+XXXX` sequences; if nothing was
decoded the input is returned unchanged. -/
def decodeUnicodeCodePoints (s : List Nat) : List Nat :=
  if (dUCPLoop s.length s 0 [] false).2 then (dUCPLoop s.length s 0 [] false).1 else s

/-- Loop body of `decodeUnicodeEscapes`: scans for `\\uXXXX` (double
backslash) and `\uXXXX` escapes, case-insensitive `u` (`\` = 92, `u` = 117,
`U` = 85). -/
def dUELoop : Nat → List Nat → Nat → List Nat → Bool → List Nat × Bool
  | 0, _, _, buf, changed => (buf, changed)
  | fuel+1, s, i, buf, changed =>
    if i < s.length then
      if s.getD i 0 = 92 then
        if i + 6 < s.length ∧ s.getD (i+1) 0 = 92 ∧
            (s.getD (i+2) 0 = 117 ∨ s.getD (i+2) 0 = 85) ∧ (parseHex4 s (i+3)).isSome = true then
          dUELoop fuel s (i+7) (buf ++ utf8Encode ((parseHex4 s (i+3)).getD 0)) true
        else if i + 5 < s.length ∧ (s.getD (i+1) 0 = 117 ∨ s.getD (i+1) 0 = 85) ∧
            (parseHex4 s (i+2)).isSome = true then
          dUELoop fuel s (i+6) (buf ++ utf8Encode ((parseHex4 s (i+2)).getD 0)) true
        else dUELoop fuel s (i+1) (buf ++ [s.getD i 0]) changed
      else dUELoop fuel s (i+1) (buf ++ [s.getD i 0]) changed
    else (buf, changed)

/-- `decodeUnicodeEscapes` decodes `\uXXXX` and `\\uXXXX` sequences; if
nothing was decoded the input is returned unchanged. -/
def decodeUnicodeEscapes (s : List Nat) : List Nat :=
  if (dUELoop s.length s 0 [] false).2 then (dUELoop s.length s 0 [] false).1 else s

/-- `decodeUnicode` dispatches on content: `U+` (bytes 85, 43) selects the
code-point routine, otherwise `\u` (92, 117) or `\U` (92, 85) selects the
escape routine, otherwise the input is returned unchanged. -/
def decodeUnicode (s : List Nat) : List Nat :=
  if containsB s [85, 43] = true then decodeUnicodeCodePoints s
  else if containsB s [92, 117] = true ∨ containsB s [92, 85] = true then decodeUnicodeEscapes s
  else s

/-- `encodingKind` values, powers of two so kinds can be or-ed together. -/
def percentKind : Nat := 1

/-- Unicode kind flag. -/
def unicodeKind : Nat := 2

/-- Hex kind flag. -/
def hexKind : Nat := 4

/-- Base64 kind flag. -/
def base64Kind : Nat := 8

/-- An `encoding` entry: its kind flag and its conflict precedence (the decode
function field of the Go struct is omitted; no claim inspects it through the
match list). -/
structure encoding where
  kind : Nat
  precedence : Nat
deriving DecidableEq

/-- The percent entry of the `encodings` table (precedence 4). -/
def percentEnc : encoding := ⟨percentKind, 4⟩

/-- The unicode entry of the `encodings` table (precedence 3). -/
def unicodeEnc : encoding := ⟨unicodeKind, 3⟩

/-- The hex entry of the `encodings` table (precedence 2). -/
def hexEnc : encoding := ⟨hexKind, 2⟩

/-- The base64 entry of the `encodings` table (precedence 1). -/
def base64Enc : encoding := ⟨base64Kind, 1⟩

/-- A half-open byte span `[start, endPos)` (the Go `startEnd` struct; `end`
is a Lean keyword). -/
structure startEnd where
  start : Nat
  endPos : Nat
deriving DecidableEq

/-- Modelled from the spec: the `overlaps` method of `startEnd` is outside the
provided sources; per the spec two spans overlap when their half-open
intervals intersect. -/
def startEnd.overlaps (a b : startEnd) : Bool :=
  decide (a.start < b.endPos ∧ b.start < a.endPos)

/-- A scanner match: the encoding entry and the matched span. -/
structure encodingMatch where
  encoding : encoding
  span : startEnd
deriving DecidableEq

/-- A valid `%XX` triplet at position `j`: `%` (37) followed by two hex
digits, with the third byte in range.  This is the condition the scanner
checks both when starting a percent match and inside its forward scan. -/
def tripletAt (d : List Nat) (j : Nat) : Prop :=
  d.getD j 0 = 37 ∧ j + 2 < d.length ∧
    isHexChar (d.getD (j+1) 0) = true ∧ isHexChar (d.getD (j+2) 0) = true

instance (d : List Nat) (j : Nat) : Decidable (tripletAt d j) := by
  unfold tripletAt
  infer_instance

/-- Forward scan of the percent branch: walks `j` to the end of the line (or
text) and returns the end of the last valid `%XX` triplet seen, starting from
accumulator `acc`. -/
def percentScan : Nat → List Nat → Nat → Nat → Nat
  | 0, _, _, acc => acc
  | fuel+1, d, j, acc =>
    if j < d.length ∧ d.getD j 0 ≠ 10 then
      percentScan fuel d (j+1) (if tripletAt d j then j + 3 else acc)
    else acc

/-- `U+XXXX` byte pattern at position `j`: `U` (85), `+` (43), four hex
digits (bounds are checked separately by the callers, as in the source). -/
def uplusHexAt (d : List Nat) (j : Nat) : Bool :=
  d.getD j 0 == 85 && d.getD (j+1) 0 == 43 &&
    isHexChar (d.getD (j+2) 0) && isHexChar (d.getD (j+3) 0) &&
    isHexChar (d.getD (j+4) 0) && isHexChar (d.getD (j+5) 0)

/-- Whitespace-skipping inner loop of the `U+XXXX` merge. -/
def skipWs : Nat → List Nat → Nat → Nat
  | 0, _, j => j
  | fuel+1, d, j =>
    if j < d.length ∧ isWhitespace (d.getD j 0) = true then skipWs fuel d (j+1) else j

/-- Merge loop of the `U+XXXX` branch: consumes further whitespace-separated
`U+XXXX` groups whose following byte is whitespace or end-of-text, tracking
the end of the last accepted group in `acc`. -/
def uplusMerge : Nat → List Nat → Nat → Nat → Nat
  | 0, _, _, acc => acc
  | fuel+1, d, j, acc =>
    if j < d.length ∧ isWhitespace (d.getD j 0) = true then
      if skipWs d.length d j + 5 < d.length ∧ uplusHexAt d (skipWs d.length d j) = true then
        if d.length ≤ skipWs d.length d j + 6 ∨
            isWhitespace (d.getD (skipWs d.length d j + 6) 0) = true then
          uplusMerge fuel d (skipWs d.length d j + 6) (skipWs d.length d j + 6)
        else acc
      else acc
    else acc

/-- `\\uXXXX` byte pattern at position `j`: two backslashes (92), `u` or `U`
(117/85), four hex digits (bounds checked separately, as in the source). -/
def escDoubleAt (d : List Nat) (j : Nat) : Bool :=
  d.getD j 0 == 92 && d.getD (j+1) 0 == 92 &&
    (d.getD (j+2) 0 == 117 || d.getD (j+2) 0 == 85) &&
    isHexChar (d.getD (j+3) 0) && isHexChar (d.getD (j+4) 0) &&
    isHexChar (d.getD (j+5) 0) && isHexChar (d.getD (j+6) 0)

/-- `\uXXXX` byte pattern at position `j`: backslash, `u` or `U`, four hex
digits (bounds checked separately, as in the source). -/
def escSingleAt (d : List Nat) (j : Nat) : Bool :=
  d.getD j 0 == 92 && (d.getD (j+1) 0 == 117 || d.getD (j+1) 0 == 85) &&
    isHexChar (d.getD (j+2) 0) && isHexChar (d.getD (j+3) 0) &&
    isHexChar (d.getD (j+4) 0) && isHexChar (d.getD (j+5) 0)

/-- Merge loop shared by both unicode-escape branches: consumes consecutive
`\\uXXXX` or `\uXXXX` escapes immediately following position `j` (which is
the end of the last accepted escape). -/
def escMerge : Nat → List Nat → Nat → Nat
  | 0, _, j => j
  | fuel+1, d, j =>
    if j < d.length then
      if j + 6 < d.length ∧ escDoubleAt d j = true then escMerge fuel d (j+7)
      else if j + 5 < d.length ∧ escSingleAt d j = true then escMerge fuel d (j+6)
      else j
    else j

/-- Run loop of the hex/base64 branch: advances over base64-alphabet bytes,
tracking whether every byte seen is also a hex digit. -/
def runScan : Nat → List Nat → Nat → Bool → Nat × Bool
  | 0, _, i, allHex => (i, allHex)
  | fuel+1, d, i, allHex =>
    if i < d.length ∧ isB64Char (d.getD i 0) = true then
      runScan fuel d (i+1) (allHex && !isB64NotHex (d.getD i 0))
    else (i, allHex)

/-- Consume up to two trailing `=` (61) bytes after a base64 run (the
`eqCount` loop unrolled). -/
def eqPad (d : List Nat) (e : Nat) : Nat :=
  if e < d.length ∧ d.getD e 0 = 61 then
    if e + 1 < d.length ∧ d.getD (e+1) 0 = 61 then e + 2 else e + 1
  else e

/-- The scanner's main loop (`findEncodingMatches` before conflict
filtering), from position `i`. -/
def scanFrom : Nat → List Nat → Nat → List encodingMatch
  | 0, _, _ => []
  | fuel+1, d, i =>
    if i < d.length then
      if tripletAt d i then
        encodingMatch.mk percentEnc ⟨i, percentScan d.length d (i+3) (i+3)⟩ ::
          scanFrom fuel d (percentScan d.length d (i+3) (i+3))
      else if i + 5 < d.length ∧ uplusHexAt d i = true ∧
          (d.length ≤ i + 6 ∨ isWhitespace (d.getD (i+6) 0) = true) then
        encodingMatch.mk unicodeEnc ⟨i, uplusMerge d.length d (i+6) (i+6)⟩ ::
          scanFrom fuel d (uplusMerge d.length d (i+6) (i+6))
      else if i + 7 < d.length ∧ escDoubleAt d i = true then
        encodingMatch.mk unicodeEnc ⟨i, escMerge d.length d (i+7)⟩ ::
          scanFrom fuel d (escMerge d.length d (i+7))
      else if i + 5 < d.length ∧ escSingleAt d i = true then
        encodingMatch.mk unicodeEnc ⟨i, escMerge d.length d (i+6)⟩ ::
          scanFrom fuel d (escMerge d.length d (i+6))
      else if isB64Char (d.getD i 0) = true then
        if (runScan d.length d (i+1) (!isB64NotHex (d.getD i 0))).2 = true ∧
            32 ≤ (runScan d.length d (i+1) (!isB64NotHex (d.getD i 0))).1 - i then
          encodingMatch.mk hexEnc
              ⟨i, i + ((runScan d.length d (i+1) (!isB64NotHex (d.getD i 0))).1 - i)⟩ ::
            scanFrom fuel d (runScan d.length d (i+1) (!isB64NotHex (d.getD i 0))).1
        else if 16 ≤ (runScan d.length d (i+1) (!isB64NotHex (d.getD i 0))).1 - i then
          encodingMatch.mk base64Enc
              ⟨i, eqPad d (runScan d.length d (i+1) (!isB64NotHex (d.getD i 0))).1⟩ ::
            scanFrom fuel d (runScan d.length d (i+1) (!isB64NotHex (d.getD i 0))).1
        else scanFrom fuel d (runScan d.length d (i+1) (!isB64NotHex (d.getD i 0))).1
      else scanFrom fuel d (i+1)
    else []

/-- The conflict filter: walks the match list and drops a match that overlaps
its original previous or next neighbour of strictly higher precedence. -/
def filterStep : Option encodingMatch → List encodingMatch → List encodingMatch
  | _, [] => []
  | prev, m :: rest =>
    if (match prev with
        | some p => m.span.overlaps p.span && decide (m.encoding.precedence < p.encoding.precedence)
        | none => false) = true ∨
       (match rest with
        | nx :: _ => m.span.overlaps nx.span && decide (m.encoding.precedence < nx.encoding.precedence)
        | [] => false) = true then
      filterStep (some m) rest
    else m :: filterStep (some m) rest

/-- `findEncodingMatches`: one scanner pass followed by the conflict filter
(the filter is skipped when at most one match was found, as in the source). -/
def findEncodingMatches (d : List Nat) : List encodingMatch :=
  if (scanFrom d.length d 0).length ≤ 1 then scanFrom d.length d 0
  else filterStep none (scanFrom d.length d 0)

/-- A byte at which some scanner branch could begin: `%`, `U`, `\`, or a
base64-alphabet byte. -/
def startOK (d : List Nat) (t : Nat) : Prop :=
  d.getD t 0 = 37 ∨ d.getD t 0 = 85 ∨ d.getD t 0 = 92 ∨ isB64Char (d.getD t 0) = true

/-- Position `e` is the end of a valid `U+XXXX` group whose following byte is
whitespace or end-of-text. -/
def groupEndAt (d : List Nat) (e : Nat) : Prop :=
  6 ≤ e ∧ e ≤ d.length ∧ uplusHexAt d (e - 6) = true ∧
    (d.length ≤ e ∨ isWhitespace (d.getD e 0) = true)

/-- Position `e` is the end of a valid `\\uXXXX` or `\uXXXX` escape. -/
def escEndAt (d : List Nat) (e : Nat) : Prop :=
  (7 ≤ e ∧ e ≤ d.length ∧ escDoubleAt d (e - 7) = true) ∨
  (6 ≤ e ∧ e ≤ d.length ∧ escSingleAt d (e - 6) = true)

/-- No position of `s` starts a decodable `U+XXXX` unit. -/
def noUnitCP (s : List Nat) : Prop :=
  ∀ i, i < s.length →
    ¬ (i + 5 < s.length ∧ s.getD i 0 = 85 ∧ s.getD (i+1) 0 = 43 ∧
      (parseHex4 s (i+2)).isSome = true)

/-- No position of `s` starts a decodable `\\uXXXX` or `\uXXXX` unit. -/
def noUnitEsc (s : List Nat) : Prop :=
  ∀ i, i < s.length →
    ¬ (i + 6 < s.length ∧ s.getD i 0 = 92 ∧ s.getD (i+1) 0 = 92 ∧
        (s.getD (i+2) 0 = 117 ∨ s.getD (i+2) 0 = 85) ∧
        (parseHex4 s (i+3)).isSome = true) ∧
    ¬ (i + 5 < s.length ∧ s.getD i 0 = 92 ∧
        (s.getD (i+1) 0 = 117 ∨ s.getD (i+1) 0 = 85) ∧
        (parseHex4 s (i+2)).isSome = true)

instance (s : List Nat) : Decidable (noUnitCP s) := by
  unfold noUnitCP
  infer_instance

instance (s : List Nat) : Decidable (noUnitEsc s) := by
  unfold noUnitEsc
  infer_instance

/-! ### Concrete inputs (byte lists of ASCII texts) used by the claims -/

/-- Bytes of the text hello%20world. -/
def pctSimple : List Nat := [104, 101, 108, 108, 111, 37, 50, 48, 119, 111, 114, 108, 100]

/-- Bytes of the text %20stuff%3D. -/
def pctGreedy : List Nat := [37, 50, 48, 115, 116, 117, 102, 102, 37, 51, 68]

/-- Bytes of the text %20hello, a newline (10), then %3D. -/
def pctNewline : List Nat := [37, 50, 48, 104, 101, 108, 108, 111, 10, 37, 51, 68]

/-- Bytes of the text U+0048 U+0069. -/
def uplusPair : List Nat := [85, 43, 48, 48, 52, 56, 32, 85, 43, 48, 48, 54, 57]

/-- Bytes of the text U+0041X. -/
def uplusRejected : List Nat := [85, 43, 48, 48, 52, 49, 88]

/-- Bytes of the text U+0041 on its own. -/
def uplusLone : List Nat := [85, 43, 48, 48, 52, 49]

/-- Bytes of the text U+0041 U+0042X (second group fails the trailing test). -/
def uplusPartner : List Nat := [85, 43, 48, 48, 52, 49, 32, 85, 43, 48, 48, 52, 50, 88]

/-- Bytes of a single-backslash escape of A followed by a double-backslash
escape of B. -/
def escMixed : List Nat := [92, 117, 48, 48, 52, 49, 92, 92, 117, 48, 48, 52, 50]

/-- Bytes of two consecutive double-backslash escapes (H then i). -/
def escDoublePair : List Nat := [92, 92, 117, 48, 48, 52, 56, 92, 92, 117, 48, 48, 54, 57]

/-- Bytes of one double-backslash escape of A whose last hex digit is the
final byte of the text. -/
def escDoubleEot : List Nat := [92, 92, 117, 48, 48, 52, 49]

/-- Bytes of two single-backslash escapes with uppercase U. -/
def escUpperPair : List Nat := [92, 85, 48, 48, 52, 56, 92, 85, 48, 48, 54, 57]

/-- Bytes of the text secret%3D%22longvalue1234567%22. -/
def pctSecret : List Nat := [115, 101, 99, 114, 101, 116, 37, 51, 68, 37, 50, 50,
  108, 111, 110, 103, 118, 97, 108, 117, 101, 49, 50, 51, 52, 53, 54, 55, 37, 50, 50]

/-- Bytes of 14 base64-alphabet characters followed by two padding bytes. -/
def b64Pad14 : List Nat := [97, 66, 99, 68, 101, 70, 103, 72, 105, 74, 107, 76, 109, 78, 61, 61]

/-- Bytes of a 16-character base64-alphabet run. -/
def b64Run16 : List Nat := [97, 66, 99, 68, 101, 70, 103, 72, 105, 74, 107, 76, 109, 78, 111, 80]

/-- Bytes of the text U+0041 U+ZZZZ (one valid unit, one invalid). -/
def cpPartial : List Nat := [85, 43, 48, 48, 52, 49, 32, 85, 43, 90, 90, 90, 90]

/-- Bytes of the text U+0041 U+0042. -/
def cpPair : List Nat := [85, 43, 48, 48, 52, 49, 32, 85, 43, 48, 48, 52, 50]

/-- Bytes of the text U+ZZZZ. -/
def cpInvalid : List Nat := [85, 43, 90, 90, 90, 90]

/-- Bytes of a single-backslash escape whose digits ZZZZ are not hex. -/
def escInvalid : List Nat := [92, 117, 90, 90, 90, 90]

/-- Bytes of the text U+0041, a space, then a single-backslash escape of B. -/
def mixedStyles : List Nat := [85, 43, 48, 48, 52, 49, 32, 92, 117, 48, 48, 52, 50]

/-! ### Byte classifier facts -/

lemma hex_b64 {c : Nat} (h : isHexChar c = true) : isB64Char c = true := by
  simp only [isHexChar, isB64Char, decide_eq_true_eq] at *
  omega

lemma hex_notB64NotHex {c : Nat} (h : isHexChar c = true) : isB64NotHex c = false := by
  simp only [isHexChar, isB64NotHex, decide_eq_true_eq, decide_eq_false_iff_not] at *
  omega

lemma b64_nonhex {c : Nat} (hb : isB64Char c = true) (hh : isHexChar c = false) :
    isB64NotHex c = true := by
  simp only [isHexChar, isB64Char, isB64NotHex, decide_eq_true_eq,
    decide_eq_false_iff_not] at *
  omega

lemma hex_ne_10 {c : Nat} (h : isHexChar c = true) : c ≠ 10 := by
  simp only [isHexChar, decide_eq_true_eq] at h
  omega

lemma b64_not_ws {c : Nat} (h : isB64Char c = true) : isWhitespace c = false := by
  simp only [isB64Char, isWhitespace, decide_eq_true_eq, decide_eq_false_iff_not] at *
  omega

lemma b64_ne_37 {c : Nat} (h : isB64Char c = true) : c ≠ 37 := by
  simp only [isB64Char, decide_eq_true_eq] at h
  omega

lemma b64_ne_92 {c : Nat} (h : isB64Char c = true) : c ≠ 92 := by
  simp only [isB64Char, decide_eq_true_eq] at h
  omega

lemma hex_ne_37 {c : Nat} (h : isHexChar c = true) : c ≠ 37 := by
  simp only [isHexChar, decide_eq_true_eq] at h
  omega

lemma hex_ne_43 {c : Nat} (h : isHexChar c = true) : c ≠ 43 := by
  simp only [isHexChar, decide_eq_true_eq] at h
  omega

lemma hex_ne_92 {c : Nat} (h : isHexChar c = true) : c ≠ 92 := by
  simp only [isHexChar, decide_eq_true_eq] at h
  omega

/-! ### Unfolding the byte-pattern tests into propositions -/

lemma uplusHexAt_spec (d : List Nat) (j : Nat) :
    uplusHexAt d j = true ↔ d.getD j 0 = 85 ∧ d.getD (j+1) 0 = 43 ∧
      isHexChar (d.getD (j+2) 0) = true ∧ isHexChar (d.getD (j+3) 0) = true ∧
      isHexChar (d.getD (j+4) 0) = true ∧ isHexChar (d.getD (j+5) 0) = true := by
  simp only [uplusHexAt, Bool.and_eq_true, beq_iff_eq, and_assoc]

lemma escDoubleAt_spec (d : List Nat) (j : Nat) :
    escDoubleAt d j = true ↔ d.getD j 0 = 92 ∧ d.getD (j+1) 0 = 92 ∧
      (d.getD (j+2) 0 = 117 ∨ d.getD (j+2) 0 = 85) ∧
      isHexChar (d.getD (j+3) 0) = true ∧ isHexChar (d.getD (j+4) 0) = true ∧
      isHexChar (d.getD (j+5) 0) = true ∧ isHexChar (d.getD (j+6) 0) = true := by
  simp only [escDoubleAt, Bool.and_eq_true, Bool.or_eq_true, beq_iff_eq, and_assoc]

lemma escSingleAt_spec (d : List Nat) (j : Nat) :
    escSingleAt d j = true ↔ d.getD j 0 = 92 ∧
      (d.getD (j+1) 0 = 117 ∨ d.getD (j+1) 0 = 85) ∧
      isHexChar (d.getD (j+2) 0) = true ∧ isHexChar (d.getD (j+3) 0) = true ∧
      isHexChar (d.getD (j+4) 0) = true ∧ isHexChar (d.getD (j+5) 0) = true := by
  simp only [escSingleAt, Bool.and_eq_true, Bool.or_eq_true, beq_iff_eq, and_assoc]

/-! ### Monotonicity of the scanner loops -/

lemma percentScan_ge : ∀ (fuel : Nat) (d : List Nat) (j acc : Nat), acc ≤ j + 3 →
    acc ≤ percentScan fuel d j acc := by
  intro fuel
  induction fuel with
  | zero => intro d j acc _; simp [percentScan]
  | succ n ih =>
    intro d j acc h
    rw [percentScan]
    split_ifs with hc ht
    · exact le_trans (by omega) (ih d (j+1) (j+3) (by omega))
    · exact ih d (j+1) acc (by omega)
    · exact le_refl acc

lemma skipWs_ge : ∀ (fuel : Nat) (d : List Nat) (j : Nat), j ≤ skipWs fuel d j := by
  intro fuel
  induction fuel with
  | zero => intro d j; simp [skipWs]
  | succ n ih =>
    intro d j
    rw [skipWs]
    split_ifs with hc
    · exact le_trans (by omega) (ih d (j+1))
    · exact le_refl j

lemma uplusMerge_ge : ∀ (fuel : Nat) (d : List Nat) (j acc : Nat), acc ≤ j →
    acc ≤ uplusMerge fuel d j acc := by
  intro fuel
  induction fuel with
  | zero => intro d j acc _; simp [uplusMerge]
  | succ n ih =>
    intro d j acc h
    rw [uplusMerge]
    split_ifs with h1 h2 h3
    · have hws := skipWs_ge d.length d j
      exact le_trans (by omega) (ih d _ _ (le_refl _))
    · exact le_refl acc
    · exact le_refl acc
    · exact le_refl acc

lemma escMerge_ge : ∀ (fuel : Nat) (d : List Nat) (j : Nat), j ≤ escMerge fuel d j := by
  intro fuel
  induction fuel with
  | zero => intro d j; simp [escMerge]
  | succ n ih =>
    intro d j
    rw [escMerge]
    split_ifs with h1 h2 h3
    · exact le_trans (by omega) (ih d (j+7))
    · exact le_trans (by omega) (ih d (j+6))
    · exact le_refl j
    · exact le_refl j

lemma runScan_fst_ge : ∀ (fuel : Nat) (d : List Nat) (i : Nat) (b : Bool),
    i ≤ (runScan fuel d i b).1 := by
  intro fuel
  induction fuel with
  | zero => intro d i b; simp [runScan]
  | succ n ih =>
    intro d i b
    rw [runScan]
    split_ifs with hc
    · exact le_trans (by omega) (ih d (i+1) _)
    · exact le_refl i

lemma eqPad_ge (d : List Nat) (e : Nat) : e ≤ eqPad d e ∧ eqPad d e ≤ e + 2 := by
  unfold eqPad
  split_ifs <;> omega

lemma eqPad_all61 (d : List Nat) (e : Nat) :
    ∀ t, e ≤ t → t < eqPad d e → d.getD t 0 = 61 := by
  unfold eqPad
  split_ifs with h1 h2 <;> intro t ht1 ht2
  · have : t = e ∨ t = e + 1 := by omega
    rcases this with rfl | rfl
    · exact h1.2
    · exact h2.2
  · have : t = e := by omega
    subst this
    exact h1.2
  · omega

/-! ### Characterizing the base64 run loop on a run plus padding -/

lemma getD_append_lt (s pad : List Nat) (t : Nat) (h : t < s.length) :
    (s ++ pad).getD t 0 = s.getD t 0 := by
  simp [List.getD, List.getElem?_append_left h]

lemma getD_append_replicate61 (s : List Nat) (k t : Nat) (h1 : s.length ≤ t)
    (h2 : t < s.length + k) :
    (s ++ List.replicate k 61).getD t 0 = 61 := by
  have hlt : t - s.length < k := by omega
  simp [List.getD, List.getElem?_append_right h1, List.getElem?_replicate, hlt]

lemma getD_mem (s : List Nat) (t : Nat) (h : t < s.length) : s.getD t 0 ∈ s := by
  rw [List.getD_eq_getElem s 0 h]
  exact List.getElem_mem h

lemma runScan_replicate (s : List Nat) (k : Nat) (hs : ∀ c ∈ s, isB64Char c = true) :
    ∀ (fuel j : Nat) (b : Bool), j ≤ s.length → s.length ≤ j + fuel →
      runScan fuel (s ++ List.replicate k 61) j b =
        (s.length, b && (s.drop j).all (fun c => !isB64NotHex c)) := by
  intro fuel
  induction fuel with
  | zero =>
    intro j b h1 h2
    have : j = s.length := by omega
    subst this
    simp [runScan]
  | succ n ih =>
    intro j b h1 h2
    rw [runScan]
    rcases Nat.lt_or_ge j s.length with hj | hj
    · have hget : (s ++ List.replicate k 61).getD j 0 = s.getD j 0 := getD_append_lt s _ j hj
      have hb64 : isB64Char (s.getD j 0) = true := hs _ (getD_mem s j hj)
      rw [if_pos]
      · rw [ih (j+1) _ (by omega) (by omega)]
        have hdrop : s.drop j = s.getD j 0 :: s.drop (j+1) := by
          rw [List.getD_eq_getElem s 0 hj]
          exact List.drop_eq_getElem_cons hj
        rw [hdrop, hget]
        simp [Bool.and_assoc]
      · constructor
        · simp [List.length_append]
          omega
        · rw [hget]; exact hb64
    · have hje : j = s.length := by omega
      subst hje
      rcases Nat.eq_zero_or_pos k with rfl | hk
      · rw [if_neg]
        · simp
        · intro hcon
          exact absurd hcon.1 (by simp)
      · rw [if_neg]
        · simp
        · intro hcon
          rw [getD_append_replicate61 s k s.length (le_refl _) (by omega)] at hcon
          simp [isB64Char] at hcon

lemma runScan_all (s : List Nat) (hs : ∀ c ∈ s, isB64Char c = true) :
    ∀ (fuel j : Nat) (b : Bool), j ≤ s.length → s.length ≤ j + fuel →
      runScan fuel s j b = (s.length, b && (s.drop j).all (fun c => !isB64NotHex c)) := by
  intro fuel j b h1 h2
  have := runScan_replicate s 0 hs fuel j b h1 h2
  simpa using this

/-! ### Scanning a region of `=` bytes yields nothing -/

lemma scanFrom_all61 (d : List Nat) (lo : Nat)
    (h61 : ∀ t, lo ≤ t → t < d.length → d.getD t 0 = 61) :
    ∀ (fuel j : Nat), lo ≤ j → scanFrom fuel d j = [] := by
  intro fuel
  induction fuel with
  | zero => intro j _; simp [scanFrom]
  | succ n ih =>
    intro j hj
    rw [scanFrom]
    rcases Nat.lt_or_ge j d.length with hlt | hge
    · have hval : d.getD j 0 = 61 := h61 j hj hlt
      rw [if_pos hlt, if_neg, if_neg, if_neg, if_neg, if_neg]
      · exact ih (j+1) (by omega)
      · rw [hval]; simp [isB64Char]
      · intro hcon
        have h92 := ((escSingleAt_spec d j).1 hcon.2).1
        rw [hval] at h92
        omega
      · intro hcon
        have h92 := ((escDoubleAt_spec d j).1 hcon.2).1
        rw [hval] at h92
        omega
      · intro hcon
        have h85 := ((uplusHexAt_spec d j).1 hcon.2.1).1
        rw [hval] at h85
        omega
      · intro hcon
        have h37 := hcon.1
        rw [hval] at h37
        omega
    · rw [if_neg (by omega)]

/-! ### Classification of an isolated run (optionally followed by `=` bytes) -/

lemma drop_all_notB64NotHex (s : List Nat) (hs : ∀ c ∈ s, isHexChar c = true) (j : Nat) :
    (s.drop j).all (fun c => !isB64NotHex c) = true := by
  rw [List.all_eq_true]
  intro c hc
  have hm : c ∈ s := List.mem_of_mem_drop hc
  simp [hex_notB64NotHex (hs c hm)]

lemma length_append_replicate (s : List Nat) (k : Nat) :
    (s ++ List.replicate k 61).length = s.length + k := by
  simp

lemma eqPad_replicate (s : List Nat) (k : Nat) :
    eqPad (s ++ List.replicate k 61) s.length = s.length + min k 2 := by
  unfold eqPad
  rcases k with - | - | k
  · rw [if_neg]
    · omega
    · intro hcon
      have := hcon.1
      simp at this
  · rw [if_pos, if_neg]
    · omega
    · intro hcon
      have := hcon.1
      rw [length_append_replicate] at this
      omega
    · constructor
      · rw [length_append_replicate]; omega
      · exact getD_append_replicate61 s 1 s.length (le_refl _) (by omega)
  · rw [if_pos, if_pos]
    · omega
    · constructor
      · rw [length_append_replicate]; omega
      · exact getD_append_replicate61 s (k+2) (s.length + 1) (by omega) (by omega)
    · constructor
      · rw [length_append_replicate]; omega
      · exact getD_append_replicate61 s (k+2) s.length (le_refl _) (by omega)

lemma tail61_empty (s : List Nat) (k : Nat) :
    ∀ fuel, scanFrom fuel (s ++ List.replicate k 61) s.length = [] := by
  intro fuel
  apply scanFrom_all61 (s ++ List.replicate k 61) s.length _ fuel s.length (le_refl _)
  intro t ht1 ht2
  rw [length_append_replicate] at ht2
  exact getD_append_replicate61 s k t ht1 ht2

lemma scanFrom_hexRun (s : List Nat) (k : Nat)
    (hs : ∀ c ∈ s, isHexChar c = true) (hlen : 32 ≤ s.length) :
    ∀ fuel, scanFrom (fuel+1) (s ++ List.replicate k 61) 0 =
      [⟨hexEnc, ⟨0, s.length⟩⟩] := by
  intro fuel
  have hd0 : (s ++ List.replicate k 61).getD 0 0 = s.getD 0 0 :=
    getD_append_lt s _ 0 (by omega)
  have h0hex : isHexChar (s.getD 0 0) = true := hs _ (getD_mem s 0 (by omega))
  have hd1 : (s ++ List.replicate k 61).getD 1 0 = s.getD 1 0 :=
    getD_append_lt s _ 1 (by omega)
  have h1hex : isHexChar (s.getD 1 0) = true := hs _ (getD_mem s 1 (by omega))
  have hrun : runScan (s ++ List.replicate k 61).length (s ++ List.replicate k 61) 1
      (!isB64NotHex ((s ++ List.replicate k 61).getD 0 0)) = (s.length, true) := by
    rw [runScan_replicate s k (fun c hc => hex_b64 (hs c hc)) _ 1 _ (by omega)
      (by rw [length_append_replicate]; omega)]
    rw [hd0, hex_notB64NotHex h0hex, drop_all_notB64NotHex s hs 1]
    rfl
  rw [scanFrom]
  simp only [Nat.zero_add, Nat.add_zero, Nat.sub_zero]
  rw [if_pos (by rw [length_append_replicate]; omega)]
  rw [if_neg, if_neg, if_neg, if_neg, if_pos, hrun]
  · rw [if_pos ⟨rfl, by omega⟩]
    rw [tail61_empty s k fuel]
  · rw [hd0]; exact hex_b64 h0hex
  · intro hcon
    have h92 := ((escSingleAt_spec _ 0).1 hcon.2).1
    rw [hd0] at h92
    exact hex_ne_92 h0hex h92
  · intro hcon
    have h92 := ((escDoubleAt_spec _ 0).1 hcon.2).1
    rw [hd0] at h92
    exact hex_ne_92 h0hex h92
  · intro hcon
    have h43 := ((uplusHexAt_spec _ 0).1 hcon.2.1).2.1
    rw [hd1] at h43
    exact hex_ne_43 h1hex h43
  · intro hcon
    have h37 := hcon.1
    rw [hd0] at h37
    exact hex_ne_37 h0hex h37

lemma scanFrom_b64Run (s : List Nat) (k : Nat)
    (hs : ∀ c ∈ s, isB64Char c = true) (hlen : 16 ≤ s.length)
    (hnothex : ¬ ((∀ c ∈ s, isHexChar c = true) ∧ 32 ≤ s.length)) :
    ∀ fuel, scanFrom (fuel+1) (s ++ List.replicate k 61) 0 =
      [⟨base64Enc, ⟨0, s.length + min k 2⟩⟩] := by
  intro fuel
  have hd0 : (s ++ List.replicate k 61).getD 0 0 = s.getD 0 0 :=
    getD_append_lt s _ 0 (by omega)
  have h0b64 : isB64Char (s.getD 0 0) = true := hs _ (getD_mem s 0 (by omega))
  have hd6 : (s ++ List.replicate k 61).getD 6 0 = s.getD 6 0 :=
    getD_append_lt s _ 6 (by omega)
  have h6b64 : isB64Char (s.getD 6 0) = true := hs _ (getD_mem s 6 (by omega))
  have hrunval : runScan (s ++ List.replicate k 61).length (s ++ List.replicate k 61) 1
      (!isB64NotHex ((s ++ List.replicate k 61).getD 0 0)) =
        (s.length, (!isB64NotHex (s.getD 0 0)) && (s.drop 1).all (fun c => !isB64NotHex c)) := by
    rw [runScan_replicate s k hs _ 1 _ (by omega)
      (by rw [length_append_replicate]; omega), hd0]
  rw [scanFrom]
  simp only [Nat.zero_add, Nat.add_zero, Nat.sub_zero]
  rw [if_pos (by rw [length_append_replicate]; omega)]
  rw [if_neg, if_neg, if_neg, if_neg, if_pos, hrunval]
  · rw [if_neg, if_pos (by omega)]
    · rw [eqPad_replicate s k, tail61_empty s k fuel]
    · intro hcon
      have h32 : 32 ≤ s.length := hcon.2
      have hnh : ¬ (∀ c ∈ s, isHexChar c = true) := by
        intro hall
        exact hnothex ⟨hall, h32⟩
      push_neg at hnh
      obtain ⟨c, hc, hcnot⟩ := hnh
      have hcb64 : isB64Char c = true := hs c hc
      have hcnothex : isB64NotHex c = true :=
        b64_nonhex hcb64 (by simpa using hcnot)
      have hall : s.all (fun c => !isB64NotHex c) = false := by
        rw [List.all_eq_false]
        exact ⟨c, hc, by simp [hcnothex]⟩
      have hsplit : ((!isB64NotHex (s.getD 0 0)) && (s.drop 1).all (fun c => !isB64NotHex c)) =
          s.all (fun c => !isB64NotHex c) := by
        rcases s with - | ⟨a, tl⟩
        · simp at hlen
        · rw [List.all_cons]
          rfl
      rw [hsplit, hall] at hcon
      simp at hcon
  · rw [hd0]; exact h0b64
  · intro hcon
    have h92 := ((escSingleAt_spec _ 0).1 hcon.2).1
    rw [hd0] at h92
    exact b64_ne_92 h0b64 h92
  · intro hcon
    have h92 := ((escDoubleAt_spec _ 0).1 hcon.2).1
    rw [hd0] at h92
    exact b64_ne_92 h0b64 h92
  · intro hcon
    rcases hcon.2.2 with hle | hws
    · rw [length_append_replicate] at hle
      omega
    · rw [hd6] at hws
      rw [b64_not_ws h6b64] at hws
      exact Bool.false_ne_true hws
  · intro hcon
    have h37 := hcon.1
    rw [hd0] at h37
    exact b64_ne_37 h0b64 h37

/-! ### The conflict filter keeps a sublist -/

lemma percent_ne_runKinds : percentEnc.kind ≠ hexKind ∧ percentEnc.kind ≠ base64Kind := by
  decide

lemma unicode_ne_runKinds : unicodeEnc.kind ≠ hexKind ∧ unicodeEnc.kind ≠ base64Kind := by
  decide

lemma filterStep_sublist : ∀ (l : List encodingMatch) (prev : Option encodingMatch),
    List.Sublist (filterStep prev l) l := by
  intro l
  induction l with
  | nil => intro prev; simp [filterStep]
  | cons m rest ih =>
    intro prev
    simp only [filterStep]
    split_ifs with h
    · exact (ih (some m)).trans (List.sublist_cons_self m rest)
    · exact (ih (some m)).cons₂ m

lemma mem_scan_of_mem_find (d : List Nat) (m : encodingMatch)
    (h : m ∈ findEncodingMatches d) : m ∈ scanFrom d.length d 0 := by
  unfold findEncodingMatches at h
  split_ifs at h
  · exact h
  · exact (filterStep_sublist _ none).subset h

/-! ### Full-pass results on isolated runs -/

lemma findEncodingMatches_hexRun (s : List Nat) (k : Nat)
    (hs : ∀ c ∈ s, isHexChar c = true) (hlen : 32 ≤ s.length) :
    findEncodingMatches (s ++ List.replicate k 61) = [⟨hexEnc, ⟨0, s.length⟩⟩] := by
  unfold findEncodingMatches
  obtain ⟨f, hf⟩ : ∃ f, (s ++ List.replicate k 61).length = f + 1 :=
    ⟨s.length + k - 1, by rw [length_append_replicate]; omega⟩
  rw [hf, scanFrom_hexRun s k hs hlen f]
  rw [if_pos (by simp)]

lemma findEncodingMatches_b64Run (s : List Nat) (k : Nat)
    (hs : ∀ c ∈ s, isB64Char c = true) (hlen : 16 ≤ s.length)
    (hnothex : ¬ ((∀ c ∈ s, isHexChar c = true) ∧ 32 ≤ s.length)) :
    findEncodingMatches (s ++ List.replicate k 61) =
      [⟨base64Enc, ⟨0, s.length + min k 2⟩⟩] := by
  unfold findEncodingMatches
  obtain ⟨f, hf⟩ : ∃ f, (s ++ List.replicate k 61).length = f + 1 :=
    ⟨s.length + k - 1, by rw [length_append_replicate]; omega⟩
  rw [hf, scanFrom_b64Run s k hs hlen hnothex f]
  rw [if_pos (by simp)]

lemma scanFrom_short_b64 (s : List Nat) (hs : ∀ c ∈ s, isB64Char c = true)
    (hlen : s.length ≤ 15) :
    ∀ (fuel : Nat), ∀ (i : Nat), ∀ m ∈ scanFrom fuel s i,
      m.encoding.kind ≠ hexKind ∧ m.encoding.kind ≠ base64Kind := by
  intro fuel
  induction fuel with
  | zero => intro i m hm; simp [scanFrom] at hm
  | succ n ih =>
    intro i m hm
    rw [scanFrom] at hm
    split_ifs at hm with h0 h1 h2 h3 h4 h5 h6 h7
    · rcases List.mem_cons.1 hm with rfl | hm'
      · exact percent_ne_runKinds
      · exact ih _ m hm'
    · rcases List.mem_cons.1 hm with rfl | hm'
      · exact unicode_ne_runKinds
      · exact ih _ m hm'
    · rcases List.mem_cons.1 hm with rfl | hm'
      · exact unicode_ne_runKinds
      · exact ih _ m hm'
    · rcases List.mem_cons.1 hm with rfl | hm'
      · exact unicode_ne_runKinds
      · exact ih _ m hm'
    · exfalso
      rw [runScan_all s hs s.length (i+1) _ (by omega) (by omega)] at h6
      have := h6.2
      simp at this
      omega
    · exfalso
      rw [runScan_all s hs s.length (i+1) _ (by omega) (by omega)] at h7
      simp at h7
      omega
    · exact ih _ m hm
    · exact ih _ m hm
    · simp at hm

/-! ### Every match starts at a byte that can start a match -/

lemma not_startOK_61 (d : List Nat) (t : Nat) (hval : d.getD t 0 = 61) : ¬ startOK d t := by
  intro h
  rcases h with h | h | h | h
  · omega
  · omega
  · omega
  · rw [hval] at h
    simp [isB64Char] at h

lemma scanFrom_mem_basic (d : List Nat) :
    ∀ (fuel i : Nat), ∀ m ∈ scanFrom fuel d i,
      i ≤ m.span.start ∧ m.span.start < m.span.endPos ∧ startOK d m.span.start := by
  intro fuel
  induction fuel with
  | zero => intro i m hm; simp [scanFrom] at hm
  | succ n ih =>
    intro i m hm
    rw [scanFrom] at hm
    split_ifs at hm with h0 h1 h2 h3 h4 h5 h6 h7
    · have hps : i + 3 ≤ percentScan d.length d (i+3) (i+3) :=
        percentScan_ge d.length d (i+3) (i+3) (by omega)
      rcases List.mem_cons.1 hm with rfl | hm'
      · exact ⟨le_refl _, by show i < percentScan d.length d (i+3) (i+3); omega,
          Or.inl h1.1⟩
      · have h := ih _ m hm'
        exact ⟨by omega, h.2.1, h.2.2⟩
    · have hum : i + 6 ≤ uplusMerge d.length d (i+6) (i+6) :=
        uplusMerge_ge d.length d (i+6) (i+6) (le_refl _)
      rcases List.mem_cons.1 hm with rfl | hm'
      · exact ⟨le_refl _, by show i < uplusMerge d.length d (i+6) (i+6); omega,
          Or.inr (Or.inl ((uplusHexAt_spec d i).1 h2.2.1).1)⟩
      · have h := ih _ m hm'
        exact ⟨by omega, h.2.1, h.2.2⟩
    · have hem : i + 7 ≤ escMerge d.length d (i+7) := escMerge_ge d.length d (i+7)
      rcases List.mem_cons.1 hm with rfl | hm'
      · exact ⟨le_refl _, by show i < escMerge d.length d (i+7); omega,
          Or.inr (Or.inr (Or.inl ((escDoubleAt_spec d i).1 h3.2).1))⟩
      · have h := ih _ m hm'
        exact ⟨by omega, h.2.1, h.2.2⟩
    · have hem : i + 6 ≤ escMerge d.length d (i+6) := escMerge_ge d.length d (i+6)
      rcases List.mem_cons.1 hm with rfl | hm'
      · exact ⟨le_refl _, by show i < escMerge d.length d (i+6); omega,
          Or.inr (Or.inr (Or.inl ((escSingleAt_spec d i).1 h4.2).1))⟩
      · have h := ih _ m hm'
        exact ⟨by omega, h.2.1, h.2.2⟩
    · have hrs : i + 1 ≤ (runScan d.length d (i+1) (!isB64NotHex (d.getD i 0))).1 :=
        runScan_fst_ge d.length d (i+1) _
      rcases List.mem_cons.1 hm with rfl | hm'
      · refine ⟨le_refl _, ?_, Or.inr (Or.inr (Or.inr h5))⟩
        show i < i + ((runScan d.length d (i+1) (!isB64NotHex (d.getD i 0))).1 - i)
        omega
      · have h := ih _ m hm'
        exact ⟨by omega, h.2.1, h.2.2⟩
    · have hrs : i + 1 ≤ (runScan d.length d (i+1) (!isB64NotHex (d.getD i 0))).1 :=
        runScan_fst_ge d.length d (i+1) _
      have hep := eqPad_ge d (runScan d.length d (i+1) (!isB64NotHex (d.getD i 0))).1
      rcases List.mem_cons.1 hm with rfl | hm'
      · refine ⟨le_refl _, ?_, Or.inr (Or.inr (Or.inr h5))⟩
        show i < eqPad d (runScan d.length d (i+1) (!isB64NotHex (d.getD i 0))).1
        omega
      · have h := ih _ m hm'
        exact ⟨by omega, h.2.1, h.2.2⟩
    · have hrs : i + 1 ≤ (runScan d.length d (i+1) (!isB64NotHex (d.getD i 0))).1 :=
        runScan_fst_ge d.length d (i+1) _
      have h := ih _ m hm
      exact ⟨by omega, h.2.1, h.2.2⟩
    · have h := ih _ m hm
      exact ⟨by omega, h.2.1, h.2.2⟩
    · simp at hm

/-! ### Matches of one pass are chained: each ends before the next starts -/

lemma scanFrom_chain (d : List Nat) :
    ∀ (fuel i : Nat),
      List.Pairwise (fun a b => a.span.endPos ≤ b.span.start) (scanFrom fuel d i) := by
  intro fuel
  induction fuel with
  | zero => intro i; simp [scanFrom]
  | succ n ih =>
    intro i
    rw [scanFrom]
    split_ifs with h0 h1 h2 h3 h4 h5 h6 h7
    · refine List.Pairwise.cons ?_ (ih _)
      intro b hb
      exact (scanFrom_mem_basic d n _ b hb).1
    · refine List.Pairwise.cons ?_ (ih _)
      intro b hb
      exact (scanFrom_mem_basic d n _ b hb).1
    · refine List.Pairwise.cons ?_ (ih _)
      intro b hb
      exact (scanFrom_mem_basic d n _ b hb).1
    · refine List.Pairwise.cons ?_ (ih _)
      intro b hb
      exact (scanFrom_mem_basic d n _ b hb).1
    · refine List.Pairwise.cons ?_ (ih _)
      intro b hb
      have := (scanFrom_mem_basic d n _ b hb).1
      have hrs : i ≤ (runScan d.length d (i+1) (!isB64NotHex (d.getD i 0))).1 :=
        le_trans (by omega) (runScan_fst_ge d.length d (i+1) _)
      show i + ((runScan d.length d (i+1) (!isB64NotHex (d.getD i 0))).1 - i) ≤ b.span.start
      omega
    · refine List.Pairwise.cons ?_ (ih _)
      intro b hb
      have hmem := scanFrom_mem_basic d n _ b hb
      show eqPad d (runScan d.length d (i+1) (!isB64NotHex (d.getD i 0))).1 ≤ b.span.start
      by_cases hlt :
          b.span.start < eqPad d (runScan d.length d (i+1) (!isB64NotHex (d.getD i 0))).1
      · exfalso
        exact not_startOK_61 d b.span.start
          (eqPad_all61 d _ b.span.start hmem.1 hlt) hmem.2.2
      · omega
    · exact ih _
    · exact ih _
    · simp

lemma findEncodingMatches_chain (d : List Nat) :
    List.Pairwise (fun a b => a.span.endPos ≤ b.span.start) (findEncodingMatches d) := by
  unfold findEncodingMatches
  split_ifs
  · exact scanFrom_chain d d.length 0
  · exact (scanFrom_chain d d.length 0).sublist (filterStep_sublist _ none)

lemma find_mem_lt (d : List Nat) (m : encodingMatch) (h : m ∈ findEncodingMatches d) :
    m.span.start < m.span.endPos :=
  (scanFrom_mem_basic d d.length 0 m (mem_scan_of_mem_find d m h)).2.1

/-! ### The percent forward scan: triplet tracking, newlines, maximality -/

lemma percentScan_triplet (d : List Nat) :
    ∀ (fuel j acc : Nat), acc ≤ j + 3 → tripletAt d (acc - 3) →
      tripletAt d (percentScan fuel d j acc - 3) := by
  intro fuel
  induction fuel with
  | zero => intro j acc _ h; simpa [percentScan] using h
  | succ n ih =>
    intro j acc hle h
    rw [percentScan]
    split_ifs with hc ht
    · exact ih (j+1) (j+3) (by omega) (by simpa using ht)
    · exact ih (j+1) acc (by omega) h
    · exact h

lemma percentScan_nl (d : List Nat) (lo : Nat) :
    ∀ (fuel j acc : Nat),
      (∀ t, lo ≤ t → t < j → d.getD t 0 ≠ 10) →
      (∀ t, lo ≤ t → t < acc → d.getD t 0 ≠ 10) →
      ∀ t, lo ≤ t → t < percentScan fuel d j acc → d.getD t 0 ≠ 10 := by
  intro fuel
  induction fuel with
  | zero => intro j acc _ hacc; simpa [percentScan] using hacc
  | succ n ih =>
    intro j acc hj hacc
    rw [percentScan]
    split_ifs with hc ht
    · refine ih (j+1) (j+3) ?_ ?_
      · intro t h1 h2
        rcases Nat.lt_or_ge t j with h | h
        · exact hj t h1 h
        · have : t = j := by omega
          subst this
          exact hc.2
      · intro t h1 h2
        rcases Nat.lt_or_ge t j with h | h
        · exact hj t h1 h
        · have : t = j ∨ t = j + 1 ∨ t = j + 2 := by omega
          rcases this with rfl | rfl | rfl
          · exact hc.2
          · exact hex_ne_10 ht.2.2.1
          · exact hex_ne_10 ht.2.2.2
    · refine ih (j+1) acc ?_ hacc
      intro t h1 h2
      rcases Nat.lt_or_ge t j with h | h
      · exact hj t h1 h
      · have : t = j := by omega
        subst this
        exact hc.2
    · exact hacc

lemma percentScan_max (d : List Nat) :
    ∀ (fuel j acc : Nat), d.length ≤ j + fuel →
      ∃ jex, j ≤ jex ∧ (d.length ≤ jex ∨ d.getD jex 0 = 10) ∧
        ∀ t, j ≤ t → t < jex → tripletAt d t → t + 3 ≤ percentScan fuel d j acc := by
  intro fuel
  induction fuel with
  | zero =>
    intro j acc hfuel
    exact ⟨j, le_refl _, Or.inl (by omega), fun t h1 h2 _ => by omega⟩
  | succ n ih =>
    intro j acc hfuel
    rw [percentScan]
    split_ifs with hc ht
    · obtain ⟨jex, hj1, hj2, hj3⟩ := ih (j+1) (j+3) (by omega)
      refine ⟨jex, by omega, hj2, ?_⟩
      intro t h1 h2 h3
      rcases Nat.lt_or_ge t (j+1) with h | h
      · have htj : t = j := by omega
        rw [htj]
        exact percentScan_ge n d (j+1) (j+3) (by omega)
      · exact hj3 t h h2 h3
    · obtain ⟨jex, hj1, hj2, hj3⟩ := ih (j+1) acc (by omega)
      refine ⟨jex, by omega, hj2, ?_⟩
      intro t h1 h2 h3
      rcases Nat.lt_or_ge t (j+1) with h | h
      · have htj : t = j := by omega
        rw [htj] at h3
        exact absurd h3 ht
      · exact hj3 t h h2 h3
    · rw [not_and_or] at hc
      rcases hc with hc | hc
      · exact ⟨j, le_refl _, Or.inl (by omega), fun t h1 h2 _ => by omega⟩
      · refine ⟨j, le_refl _, Or.inr ?_, fun t h1 h2 _ => by omega⟩
        simpa using hc

/-! ### Every percent match: starts and ends with a triplet, stays on one
line, and is greedy to the last triplet on the line -/

lemma scanFrom_percent_inv (d : List Nat) :
    ∀ (fuel i : Nat), ∀ m ∈ scanFrom fuel d i, m.encoding = percentEnc →
      tripletAt d m.span.start ∧ tripletAt d (m.span.endPos - 3) ∧
      (∀ t, m.span.start ≤ t → t < m.span.endPos → d.getD t 0 ≠ 10) ∧
      (∀ t, m.span.endPos ≤ t → tripletAt d t →
        ∃ u, m.span.start ≤ u ∧ u ≤ t ∧ d.getD u 0 = 10) := by
  intro fuel
  induction fuel with
  | zero => intro i m hm; simp [scanFrom] at hm
  | succ n ih =>
    intro i m hm hk
    rw [scanFrom] at hm
    split_ifs at hm with h0 h1 h2 h3 h4 h5 h6 h7
    · rcases List.mem_cons.1 hm with rfl | hm'
      · have hge : i + 3 ≤ percentScan d.length d (i+3) (i+3) :=
          percentScan_ge d.length d (i+3) (i+3) (by omega)
        have htrip3 : ∀ t, i ≤ t → t < i + 3 → d.getD t 0 ≠ 10 := by
          intro t ht1 ht2
          have : t = i ∨ t = i + 1 ∨ t = i + 2 := by omega
          rcases this with rfl | rfl | rfl
          · rw [h1.1]; omega
          · exact hex_ne_10 h1.2.2.1
          · exact hex_ne_10 h1.2.2.2
        obtain ⟨jex, hj1, hj2, hj3⟩ := percentScan_max d d.length (i+3) (i+3) (by omega)
        refine ⟨h1, ?_, ?_, ?_⟩
        · exact percentScan_triplet d d.length (i+3) (i+3) (by omega) (by simpa using h1)
        · exact percentScan_nl d i d.length (i+3) (i+3) htrip3 htrip3
        · intro t ht htrip
          have hEt : percentScan d.length d (i+3) (i+3) ≤ t := ht
          show ∃ u, i ≤ u ∧ u ≤ t ∧ d.getD u 0 = 10
          rcases Nat.lt_or_ge t jex with hlt | hge2
          · exfalso
            have := hj3 t (by omega) hlt htrip
            omega
          · rcases hj2 with hn | h10
            · exfalso
              have := htrip.2.1
              omega
            · exact ⟨jex, by omega, by omega, h10⟩
      · exact ih _ m hm' hk
    · rcases List.mem_cons.1 hm with rfl | hm'
      · exact absurd (show unicodeEnc = percentEnc from hk) (by decide)
      · exact ih _ m hm' hk
    · rcases List.mem_cons.1 hm with rfl | hm'
      · exact absurd (show unicodeEnc = percentEnc from hk) (by decide)
      · exact ih _ m hm' hk
    · rcases List.mem_cons.1 hm with rfl | hm'
      · exact absurd (show unicodeEnc = percentEnc from hk) (by decide)
      · exact ih _ m hm' hk
    · rcases List.mem_cons.1 hm with rfl | hm'
      · exact absurd (show hexEnc = percentEnc from hk) (by decide)
      · exact ih _ m hm' hk
    · rcases List.mem_cons.1 hm with rfl | hm'
      · exact absurd (show base64Enc = percentEnc from hk) (by decide)
      · exact ih _ m hm' hk
    · exact ih _ m hm hk
    · exact ih _ m hm hk
    · simp at hm

/-! ### Unicode matches: shape of the start and of the merged end -/

lemma uplusMerge_groupEnd (d : List Nat) :
    ∀ (fuel j acc : Nat), groupEndAt d acc → groupEndAt d (uplusMerge fuel d j acc) := by
  intro fuel
  induction fuel with
  | zero => intro j acc h; simpa [uplusMerge] using h
  | succ n ih =>
    intro j acc h
    rw [uplusMerge]
    split_ifs with h1 h2 h3
    · refine ih _ _ ⟨by omega, by omega, ?_, ?_⟩
      · have : skipWs d.length d j + 6 - 6 = skipWs d.length d j := by omega
        rw [this]
        exact h2.2
      · exact h3
    · exact h
    · exact h
    · exact h

lemma escMerge_escEnd (d : List Nat) :
    ∀ (fuel j : Nat), escEndAt d j → escEndAt d (escMerge fuel d j) := by
  intro fuel
  induction fuel with
  | zero => intro j h; simpa [escMerge] using h
  | succ n ih =>
    intro j h
    rw [escMerge]
    split_ifs with h1 h2 h3
    · refine ih _ (Or.inl ⟨by omega, by omega, ?_⟩)
      have : j + 7 - 7 = j := by omega
      rw [this]
      exact h2.2
    · refine ih _ (Or.inr ⟨by omega, by omega, ?_⟩)
      have : j + 6 - 6 = j := by omega
      rw [this]
      exact h3.2
    · exact h
    · exact h

lemma scanFrom_unicode_inv (d : List Nat) :
    ∀ (fuel i : Nat), ∀ m ∈ scanFrom fuel d i, m.encoding = unicodeEnc →
      (d.getD m.span.start 0 = 85 ∧ m.span.start + 5 < d.length ∧
        uplusHexAt d m.span.start = true ∧
        (d.length ≤ m.span.start + 6 ∨
          isWhitespace (d.getD (m.span.start + 6) 0) = true) ∧
        groupEndAt d m.span.endPos) ∨
      (d.getD m.span.start 0 = 92 ∧
        ((m.span.start + 7 < d.length ∧ escDoubleAt d m.span.start = true) ∨
         (m.span.start + 5 < d.length ∧ escSingleAt d m.span.start = true)) ∧
        escEndAt d m.span.endPos) := by
  intro fuel
  induction fuel with
  | zero => intro i m hm; simp [scanFrom] at hm
  | succ n ih =>
    intro i m hm hk
    rw [scanFrom] at hm
    split_ifs at hm with h0 h1 h2 h3 h4 h5 h6 h7
    · rcases List.mem_cons.1 hm with rfl | hm'
      · exact absurd (show percentEnc = unicodeEnc from hk) (by decide)
      · exact ih _ m hm' hk
    · rcases List.mem_cons.1 hm with rfl | hm'
      · refine Or.inl ⟨((uplusHexAt_spec d i).1 h2.2.1).1, h2.1, h2.2.1, h2.2.2, ?_⟩
        refine uplusMerge_groupEnd d d.length (i+6) (i+6) ⟨by omega, by omega, ?_, h2.2.2⟩
        have : i + 6 - 6 = i := by omega
        rw [this]
        exact h2.2.1
      · exact ih _ m hm' hk
    · rcases List.mem_cons.1 hm with rfl | hm'
      · refine Or.inr ⟨((escDoubleAt_spec d i).1 h3.2).1, Or.inl ⟨h3.1, h3.2⟩, ?_⟩
        refine escMerge_escEnd d d.length (i+7) (Or.inl ⟨by omega, by omega, ?_⟩)
        have : i + 7 - 7 = i := by omega
        rw [this]
        exact h3.2
      · exact ih _ m hm' hk
    · rcases List.mem_cons.1 hm with rfl | hm'
      · refine Or.inr ⟨((escSingleAt_spec d i).1 h4.2).1, Or.inr ⟨h4.1, h4.2⟩, ?_⟩
        refine escMerge_escEnd d d.length (i+6) (Or.inr ⟨by omega, by omega, ?_⟩)
        have : i + 6 - 6 = i := by omega
        rw [this]
        exact h4.2
      · exact ih _ m hm' hk
    · rcases List.mem_cons.1 hm with rfl | hm'
      · exact absurd (show hexEnc = unicodeEnc from hk) (by decide)
      · exact ih _ m hm' hk
    · rcases List.mem_cons.1 hm with rfl | hm'
      · exact absurd (show base64Enc = unicodeEnc from hk) (by decide)
      · exact ih _ m hm' hk
    · exact ih _ m hm hk
    · exact ih _ m hm hk
    · simp at hm

/-! ### Decoder: no valid unit anywhere means the text is returned
unchanged, byte for byte -/

lemma dUCPLoop_unchanged (s : List Nat) (h : noUnitCP s) :
    ∀ (fuel i : Nat) (buf : List Nat) (changed : Bool),
      (dUCPLoop fuel s i buf changed).2 = changed := by
  intro fuel
  induction fuel with
  | zero => intro i buf changed; simp [dUCPLoop]
  | succ n ih =>
    intro i buf changed
    rw [dUCPLoop]
    by_cases h1 : i < s.length
    · rw [if_pos h1]
      by_cases h2 : i + 5 < s.length ∧ s.getD i 0 = 85 ∧ s.getD (i+1) 0 = 43
      · rw [if_pos h2]
        rcases hp : parseHex4 s (i+2) with - | r
        · show (dUCPLoop n s (i+1) (buf ++ [s.getD i 0]) changed).2 = changed
          exact ih _ _ _
        · exact absurd ⟨h2.1, h2.2.1, h2.2.2, by rw [hp]; rfl⟩ (h i h1)
      · rw [if_neg h2]
        exact ih _ _ _
    · rw [if_neg h1]

lemma dUELoop_unchanged (s : List Nat) (h : noUnitEsc s) :
    ∀ (fuel i : Nat) (buf : List Nat) (changed : Bool),
      (dUELoop fuel s i buf changed).2 = changed := by
  intro fuel
  induction fuel with
  | zero => intro i buf changed; simp [dUELoop]
  | succ n ih =>
    intro i buf changed
    rw [dUELoop]
    split_ifs with h1 h2 h3 h4
    · exact absurd ⟨h3.1, h2, h3.2.1, h3.2.2.1, h3.2.2.2⟩ (h i h1).1
    · exact absurd ⟨h4.1, h2, h4.2.1, h4.2.2⟩ (h i h1).2
    · exact ih _ _ _
    · exact ih _ _ _
    · rfl

lemma decodeUnicodeCodePoints_unchanged (s : List Nat) (h : noUnitCP s) :
    decodeUnicodeCodePoints s = s := by
  unfold decodeUnicodeCodePoints
  rw [dUCPLoop_unchanged s h]
  simp

lemma decodeUnicodeEscapes_unchanged (s : List Nat) (h : noUnitEsc s) :
    decodeUnicodeEscapes s = s := by
  unfold decodeUnicodeEscapes
  rw [dUELoop_unchanged s h]
  simp

lemma decodeUnicode_unchanged (s : List Nat) (hcp : noUnitCP s) (hesc : noUnitEsc s) :
    decodeUnicode s = s := by
  unfold decodeUnicode
  split_ifs
  · exact decodeUnicodeCodePoints_unchanged s hcp
  · exact decodeUnicodeEscapes_unchanged s hesc
  · rfl

/-! ### Decoder: a lone valid `U+XXXX` unit decodes to the UTF-8 encoding of
the code point its four hex digits denote -/

lemma dUCPLoop_exit (fuel : Nat) (s : List Nat) (i : Nat) (buf : List Nat)
    (changed : Bool) (h : s.length ≤ i) : dUCPLoop fuel s i buf changed = (buf, changed) := by
  cases fuel with
  | zero => rfl
  | succ n =>
    rw [dUCPLoop]
    rw [if_neg (by omega)]

lemma decodeUnicode_single_uplus (a b c d : Nat) (ha : hexMap a ≠ 255)
    (hb : hexMap b ≠ 255) (hc : hexMap c ≠ 255) (hd : hexMap d ≠ 255) :
    decodeUnicode [85, 43, a, b, c, d] =
      utf8Encode (((hexMap a * 16 + hexMap b) * 16 + hexMap c) * 16 + hexMap d) := by
  have hparse : parseHex4 [85, 43, a, b, c, d] 2 =
      some (((hexMap a * 16 + hexMap b) * 16 + hexMap c) * 16 + hexMap d) := by
    unfold parseHex4
    rw [if_neg (by simp), if_neg]
    · rfl
    · intro hcon
      rcases hcon with hx | hx | hx | hx
    -- each disjunct contradicts one hypothesis (the getD terms reduce)
      · exact ha hx
      · exact hb hx
      · exact hc hx
      · exact hd hx
  have hloop : dUCPLoop (List.length [85, 43, a, b, c, d]) [85, 43, a, b, c, d] 0 [] false =
      (utf8Encode (((hexMap a * 16 + hexMap b) * 16 + hexMap c) * 16 + hexMap d), true) := by
    rw [show List.length [85, 43, a, b, c, d] = 5 + 1 from rfl]
    rw [dUCPLoop]
    rw [if_pos (by simp), if_pos ⟨by simp, rfl, rfl⟩]
    simp only [hparse]
    rw [if_neg (by simp)]
    rw [dUCPLoop_exit 5 _ 6 _ _ (by simp)]
    rw [List.nil_append]
  unfold decodeUnicode
  rw [if_pos (show containsB [85, 43, a, b, c, d] [85, 43] = true from rfl)]
  unfold decodeUnicodeCodePoints
  rw [hloop]
  simp

/-! ## The claims -/

/-- C1 counterexample: the claim's final clause fails on the code — an
isolated run of 15 or fewer base64-alphabet characters can still yield a
match.  The 6-character base64-alphabet run U+0041 (bytes 85,43,48,48,52,49)
is emitted as a Unicode match, so it does not yield "no match at all". -/
theorem C1_counterexample :
    (∀ c ∈ uplusLone, isB64Char c = true) ∧ uplusLone.length ≤ 15 ∧
      findEncodingMatches uplusLone ≠ [] := by
  decide

/-- C1 (amended): a maximal base64-alphabet run is classified so: an all-hex
run of length at least 32 yields one Hex match whose span excludes any
trailing padding bytes; an all-hex run of exactly 31 yields one Base64 match;
a base64-alphabet run of exactly 16 yields one Base64 match; an isolated run
of 15 or fewer base64-alphabet characters yields no Hex and no Base64 match
(it may still yield a match of another kind: U+0041 yields a Unicode match,
as the last conjunct records). -/
theorem C1_run_thresholds :
    (∀ (s : List Nat) (k : Nat), (∀ c ∈ s, isHexChar c = true) → 32 ≤ s.length →
      findEncodingMatches (s ++ List.replicate k 61) = [⟨hexEnc, ⟨0, s.length⟩⟩]) ∧
    (∀ s : List Nat, (∀ c ∈ s, isHexChar c = true) → s.length = 31 →
      findEncodingMatches s = [⟨base64Enc, ⟨0, 31⟩⟩]) ∧
    (∀ s : List Nat, (∀ c ∈ s, isB64Char c = true) → s.length = 16 →
      findEncodingMatches s = [⟨base64Enc, ⟨0, 16⟩⟩]) ∧
    (∀ s : List Nat, (∀ c ∈ s, isB64Char c = true) → s.length ≤ 15 →
      ∀ m ∈ findEncodingMatches s,
        m.encoding.kind ≠ hexKind ∧ m.encoding.kind ≠ base64Kind) ∧
    findEncodingMatches uplusLone = [⟨unicodeEnc, ⟨0, 6⟩⟩] := by
  refine ⟨findEncodingMatches_hexRun, ?_, ?_, ?_, by decide⟩
  · intro s hs hlen
    have h := findEncodingMatches_b64Run s 0 (fun c hc => hex_b64 (hs c hc))
      (by omega) (fun hcon => by have := hcon.2; omega)
    rw [List.replicate_zero, List.append_nil] at h
    simpa [hlen] using h
  · intro s hs hlen
    have h := findEncodingMatches_b64Run s 0 hs (by omega)
      (fun hcon => by have := hcon.2; omega)
    rw [List.replicate_zero, List.append_nil] at h
    simpa [hlen] using h
  · intro s hs hlen m hm
    exact scanFrom_short_b64 s hs hlen s.length 0 m (mem_scan_of_mem_find s m hm)

/-- Witness for C1: a 32-byte all-hex run followed by one padding byte yields
exactly one Hex match covering the run only. -/
theorem C1_run_thresholds_witness :
    findEncodingMatches (List.replicate 32 97 ++ List.replicate 1 61) =
      [⟨hexEnc, ⟨0, (List.replicate (32 : Nat) 97).length⟩⟩] :=
  C1_run_thresholds.1 (List.replicate 32 97) 1 (by decide) (by decide)

/-- C2 counterexample: the code tests the run length excluding padding
against the 16 threshold, so a run of 14 base64-alphabet characters followed
by two consumed padding bytes (16 including padding) yields no match at all,
while the claim promises a Base64 match. -/
theorem C2_counterexample :
    b64Pad14 = [97, 66, 99, 68, 101, 70, 103, 72, 105, 74, 107, 76, 109, 78] ++
      List.replicate 2 61 ∧
    (∀ c ∈ [97, 66, 99, 68, 101, 70, 103, 72, 105, 74, 107, 76, 109, 78],
      isB64Char (c : Nat) = true) ∧
    ([97, 66, 99, 68, 101, 70, 103, 72, 105, 74, 107, 76, 109, 78] : List Nat).length + 2 = 16 ∧
    findEncodingMatches b64Pad14 = [] := by
  decide

/-- C2 (amended): for a maximal base64-alphabet run followed by trailing
padding bytes (up to two consumed), the scanner emits a Base64 match spanning
the run plus the consumed padding when the run's length EXCLUDING the padding
is at least 16 and the run is not classified Hex (all-hex of length at least
32); a run of 14 characters plus two padding bytes yields no match. -/
theorem C2_base64_threshold :
    (∀ (s : List Nat) (k : Nat), (∀ c ∈ s, isB64Char c = true) → 16 ≤ s.length →
      ¬ ((∀ c ∈ s, isHexChar c = true) ∧ 32 ≤ s.length) →
      findEncodingMatches (s ++ List.replicate k 61) =
        [⟨base64Enc, ⟨0, s.length + min k 2⟩⟩]) ∧
    findEncodingMatches b64Pad14 = [] := by
  exact ⟨findEncodingMatches_b64Run, by decide⟩

/-- Witness for C2: a 16-character base64 run followed by three trailing
padding bytes matches as Base64 over the run plus two consumed paddings. -/
theorem C2_base64_threshold_witness :
    findEncodingMatches (b64Run16 ++ List.replicate 3 61) =
      [⟨base64Enc, ⟨0, b64Run16.length + min 3 2⟩⟩] :=
  C2_base64_threshold.1 b64Run16 3 (by decide) (by decide) (by decide)

/-- C3: every Percent match begins at a valid %XX triplet; it ends right
after a valid %XX triplet; its span contains no newline; and it is greedy —
any %XX triplet at or past the span's end is separated from the match by a
newline (so a triplet on a later line starts a separate match, as the
concrete newline example shows; the other examples show the single-triplet
span and the greedy extension across interstitial text). -/
theorem C3_percent_span :
    (∀ (data : List Nat), ∀ m ∈ findEncodingMatches data, m.encoding = percentEnc →
      tripletAt data m.span.start ∧
      tripletAt data (m.span.endPos - 3) ∧
      (∀ t, m.span.start ≤ t → t < m.span.endPos → data.getD t 0 ≠ 10) ∧
      (∀ t, m.span.endPos ≤ t → tripletAt data t →
        ∃ u, m.span.start ≤ u ∧ u ≤ t ∧ data.getD u 0 = 10)) ∧
    findEncodingMatches pctSimple = [⟨percentEnc, ⟨5, 8⟩⟩] ∧
    findEncodingMatches pctGreedy = [⟨percentEnc, ⟨0, 11⟩⟩] ∧
    findEncodingMatches pctNewline = [⟨percentEnc, ⟨0, 3⟩⟩, ⟨percentEnc, ⟨9, 12⟩⟩] := by
  refine ⟨?_, by decide, by decide, by decide⟩
  intro data m hm hk
  exact scanFrom_percent_inv data data.length 0 m (mem_scan_of_mem_find data m hm) hk

/-- Witness for C3: the greedy percent match over %20stuff%3D starts with a
triplet at 0 and ends with a triplet at 8. -/
theorem C3_percent_span_witness :
    tripletAt pctGreedy 0 ∧ tripletAt pctGreedy 8 :=
  ⟨(C3_percent_span.1 pctGreedy ⟨percentEnc, ⟨0, 11⟩⟩ (by decide) rfl).1,
   (C3_percent_span.1 pctGreedy ⟨percentEnc, ⟨0, 11⟩⟩ (by decide) rfl).2.1⟩

/-- C4: every Unicode match that starts at a U byte is a U+XXXX group (U, +,
four hex digits) whose following byte is whitespace or end-of-text, and its
merged end is the end of a last valid group with the same trailing
constraint; U+0041X yields no match at all; whitespace-separated qualifying
groups merge into one match ending at the last group's end; a second group
failing the trailing test is not merged. -/
theorem C4_unicode_codepoint :
    (∀ (data : List Nat), ∀ m ∈ findEncodingMatches data, m.encoding = unicodeEnc →
      data.getD m.span.start 0 = 85 →
      m.span.start + 5 < data.length ∧ uplusHexAt data m.span.start = true ∧
      (data.length ≤ m.span.start + 6 ∨
        isWhitespace (data.getD (m.span.start + 6) 0) = true) ∧
      groupEndAt data m.span.endPos) ∧
    findEncodingMatches uplusRejected = [] ∧
    findEncodingMatches uplusPair = [⟨unicodeEnc, ⟨0, 13⟩⟩] ∧
    findEncodingMatches uplusPartner = [⟨unicodeEnc, ⟨0, 6⟩⟩] := by
  refine ⟨?_, by decide, by decide, by decide⟩
  intro data m hm hk h85
  rcases scanFrom_unicode_inv data data.length 0 m (mem_scan_of_mem_find data m hm) hk
    with h | h
  · exact ⟨h.2.1, h.2.2.1, h.2.2.2⟩
  · exfalso
    have h92 := h.1
    rw [h85] at h92
    omega

/-- Witness for C4: the merged match over U+0048 U+0069 starts at a valid
group and its end 13 is the end of a valid trailing-constrained group. -/
theorem C4_unicode_codepoint_witness :
    uplusHexAt uplusPair 0 = true ∧ groupEndAt uplusPair 13 :=
  ⟨(C4_unicode_codepoint.1 uplusPair ⟨unicodeEnc, ⟨0, 13⟩⟩ (by decide) rfl rfl).2.1,
   (C4_unicode_codepoint.1 uplusPair ⟨unicodeEnc, ⟨0, 13⟩⟩ (by decide) rfl rfl).2.2.2⟩

/-- C5 counterexample: a double-backslash escape whose last hex digit is the
final byte of the text is matched, but the match starts at the SECOND
backslash, not at the escape's first backslash — the main-loop check for the
double-backslash form demands one byte beyond the escape (i+7 < n), so on
this input only the single-backslash branch fires, one byte later. -/
theorem C5_counterexample :
    escDoubleAt escDoubleEot 0 = true ∧
    findEncodingMatches escDoubleEot = [⟨unicodeEnc, ⟨1, 7⟩⟩] := by
  decide

/-- C5 (amended): every Unicode match that starts at a backslash starts with
a valid single- or double-backslash escape (case-insensitive u) and ends
right after a valid escape; consecutive escapes of either form merge into a
single match, and an escape whose last hex digit is the text's final byte is
still matched — except that a double-backslash escape at the start of a
match ending exactly at end-of-text begins at its second backslash. -/
theorem C5_unicode_escape :
    (∀ (data : List Nat), ∀ m ∈ findEncodingMatches data, m.encoding = unicodeEnc →
      data.getD m.span.start 0 = 92 →
      ((m.span.start + 7 < data.length ∧ escDoubleAt data m.span.start = true) ∨
       (m.span.start + 5 < data.length ∧ escSingleAt data m.span.start = true)) ∧
      escEndAt data m.span.endPos) ∧
    findEncodingMatches escMixed = [⟨unicodeEnc, ⟨0, 13⟩⟩] ∧
    findEncodingMatches escDoublePair = [⟨unicodeEnc, ⟨0, 14⟩⟩] ∧
    findEncodingMatches escUpperPair = [⟨unicodeEnc, ⟨0, 12⟩⟩] ∧
    findEncodingMatches escDoubleEot = [⟨unicodeEnc, ⟨1, 7⟩⟩] := by
  refine ⟨?_, by decide, by decide, by decide, by decide⟩
  intro data m hm hk h92
  rcases scanFrom_unicode_inv data data.length 0 m (mem_scan_of_mem_find data m hm) hk
    with h | h
  · exfalso
    have h85 := h.1
    rw [h92] at h85
    omega
  · exact ⟨h.2.1, h.2.2⟩

/-- Witness for C5: the merged mixed-form match over a single-backslash
escape followed by a double-backslash escape ends right after a valid
escape. -/
theorem C5_unicode_escape_witness : escEndAt escMixed 13 :=
  (C5_unicode_escape.1 escMixed ⟨unicodeEnc, ⟨0, 13⟩⟩ (by decide) rfl rfl).2

/-- C6 counterexample: the input U+0041 U+ZZZZ contains a unit whose four
characters fail to parse as hex (parseHex4 at offset 9 is none), yet the
decoder returns a PARTIAL decode (the valid unit decoded, the invalid one
left in place) rather than the whole substring unchanged. -/
theorem C6_counterexample :
    (parseHex4 cpPartial 9).isSome = false ∧
    decodeUnicode cpPartial = [65, 85, 43, 90, 90, 90, 90] ∧
    decodeUnicode cpPartial ≠ cpPartial := by
  decide

/-- C6 (amended): the whole substring is returned unchanged, byte for byte,
exactly when NO unit parses: if no position starts a decodable unit, each
routine (and the dispatcher) returns its input unchanged; but when a valid
unit accompanies an invalid one, the valid unit is decoded and the invalid
unit is left in place (a partial decode, as the final conjunct records). -/
theorem C6_unchanged_no_valid_unit :
    (∀ s : List Nat, noUnitCP s → decodeUnicodeCodePoints s = s) ∧
    (∀ s : List Nat, noUnitEsc s → decodeUnicodeEscapes s = s) ∧
    (∀ s : List Nat, noUnitCP s → noUnitEsc s → decodeUnicode s = s) ∧
    decodeUnicode cpPartial = [65, 85, 43, 90, 90, 90, 90] := by
  exact ⟨decodeUnicodeCodePoints_unchanged, decodeUnicodeEscapes_unchanged,
    decodeUnicode_unchanged, by decide⟩

/-- Witness for C6: U+ZZZZ has no decodable unit and decodes to itself. -/
theorem C6_unchanged_no_valid_unit_witness : decodeUnicode cpInvalid = cpInvalid :=
  C6_unchanged_no_valid_unit.2.2.1 cpInvalid (by decide) (by decide)

/-- C7: a valid U+XXXX unit's four hex digits are parsed into a code point
that is emitted re-encoded in UTF-8; the mixed escape input decodes to AB,
U+0041 U+0042 decodes to AB, and all-invalid inputs U+ZZZZ and the
backslash-uZZZZ escape are returned unchanged. -/
theorem C7_decode_units :
    (∀ a b c d : Nat, hexMap a ≠ 255 → hexMap b ≠ 255 → hexMap c ≠ 255 →
      hexMap d ≠ 255 →
      decodeUnicode [85, 43, a, b, c, d] =
        utf8Encode (((hexMap a * 16 + hexMap b) * 16 + hexMap c) * 16 + hexMap d)) ∧
    decodeUnicode escMixed = [65, 66] ∧
    decodeUnicode cpPair = [65, 66] ∧
    decodeUnicode cpInvalid = cpInvalid ∧
    decodeUnicode escInvalid = escInvalid := by
  exact ⟨decodeUnicode_single_uplus, by decide, by decide, by decide, by decide⟩

/-- Witness for C7: U+0041 decodes to the single byte A. -/
theorem C7_decode_units_witness : decodeUnicode [85, 43, 48, 48, 52, 49] = [65] := by
  have h := C7_decode_units.1 48 48 52 49 (by decide) (by decide) (by decide) (by decide)
  rw [h]
  decide

/-- C8: for every input text, the match list returned by one scan pass is
ordered by strictly increasing start position and its spans are pairwise
non-overlapping (each match ends at or before the next begins, and every
span is non-empty). -/
theorem C8_ordered_nonoverlapping :
    ∀ data : List Nat,
      List.Pairwise
        (fun a b => a.span.start < b.span.start ∧ a.span.endPos ≤ b.span.start)
        (findEncodingMatches data) ∧
      ∀ m ∈ findEncodingMatches data, m.span.start < m.span.endPos := by
  intro data
  constructor
  · refine List.Pairwise.imp_of_mem ?_ (findEncodingMatches_chain data)
    intro a b ha hb hr
    have hlt := find_mem_lt data a ha
    exact ⟨by omega, hr⟩
  · intro m hm
    exact find_mem_lt data m hm

/-- C9: a candidate overlapping an adjacent candidate of strictly higher
precedence is dropped by the filter (both against the original previous
neighbour and against the next neighbour); the precedence order is fixed
Percent 4 > Unicode 3 > Hex 2 > Base64 1; and the input
secret%3D%22longvalue1234567%22 yields exactly one match, of kind Percent —
the enclosed alphanumeric run is not reported as Base64. -/
theorem C9_precedence :
    (∀ (p m : encodingMatch) (rest : List encodingMatch),
      m.span.overlaps p.span = true → m.encoding.precedence < p.encoding.precedence →
      filterStep (some p) (m :: rest) = filterStep (some m) rest) ∧
    (∀ (m nx : encodingMatch) (rest : List encodingMatch),
      m.span.overlaps nx.span = true → m.encoding.precedence < nx.encoding.precedence →
      filterStep none (m :: nx :: rest) = filterStep (some m) (nx :: rest)) ∧
    (percentEnc.precedence = 4 ∧ unicodeEnc.precedence = 3 ∧
      hexEnc.precedence = 2 ∧ base64Enc.precedence = 1) ∧
    findEncodingMatches pctSecret = [⟨percentEnc, ⟨6, 31⟩⟩] ∧
    (∀ m ∈ findEncodingMatches pctSecret, m.encoding.kind = percentKind) := by
  refine ⟨?_, ?_, by decide, by decide, by decide⟩
  · intro p m rest h1 h2
    simp only [filterStep]
    rw [if_pos (Or.inl (by simp [h1, h2]))]
  · intro m nx rest h1 h2
    simp only [filterStep]
    rw [if_pos (Or.inr (by simp [h1, h2]))]

/-- Witness for C9: a Base64 candidate overlapping a higher-precedence
Percent neighbour is dropped by the filter. -/
theorem C9_precedence_witness :
    filterStep (some ⟨percentEnc, ⟨0, 5⟩⟩) [⟨base64Enc, ⟨3, 20⟩⟩] = [] := by
  have h := C9_precedence.1 ⟨percentEnc, ⟨0, 5⟩⟩ ⟨base64Enc, ⟨3, 20⟩⟩ []
    (by decide) (by decide)
  rw [h]
  decide

/-- C10: the Unicode decoder dispatches exclusively on content: when the
input contains the two bytes of U+, only the code-point routine runs (and
backslash escapes in the same input stay undecoded, as the concrete mixed
input shows); the escape routine runs only when no U+ occurs but a
backslash-u or backslash-U does; an input with none of the three markers is
returned unchanged. -/
theorem C10_dispatch :
    (∀ s : List Nat, containsB s [85, 43] = true →
      decodeUnicode s = decodeUnicodeCodePoints s) ∧
    (∀ s : List Nat, containsB s [85, 43] = false →
      (containsB s [92, 117] = true ∨ containsB s [92, 85] = true) →
      decodeUnicode s = decodeUnicodeEscapes s) ∧
    (∀ s : List Nat, containsB s [85, 43] = false → containsB s [92, 117] = false →
      containsB s [92, 85] = false → decodeUnicode s = s) ∧
    decodeUnicode mixedStyles = [65, 32, 92, 117, 48, 48, 52, 50] := by
  refine ⟨?_, ?_, ?_, by decide⟩
  · intro s h
    unfold decodeUnicode
    rw [if_pos h]
  · intro s h1 h2
    unfold decodeUnicode
    rw [if_neg (by simp [h1]), if_pos h2]
  · intro s h1 h2 h3
    unfold decodeUnicode
    rw [if_neg (by simp [h1]), if_neg (by simp [h2, h3])]

/-- Witness for C10: an input containing U+ is handled by the code-point
routine. -/
theorem C10_dispatch_witness :
    decodeUnicode [85, 43] = decodeUnicodeCodePoints [85, 43] :=
  C10_dispatch.1 [85, 43] (by decide)
